import Mathlib

/-!
Verification of the CyberChecker credential-checking engine.

This file shallowly embeds the core of the repository in Lean 4:

* `src/utils/http_client.py` — the `HttpClient` class: retrying request
  execution (`get`), delimiter extraction (`extract_substring`), variable
  substitution (`_replace_variables`, `_prepare_request_data`), condition
  evaluation (`_check_conditions`) and workflow execution
  (`check_with_config`).
* `src/cli_mode.py` / `src/cli_checker.py` — the `ConsoleChecker`
  class: result classification (`process_result`), throughput statistics
  (`update_stats`) and the worker scheduler (`worker_thread`).

Python strings are modelled as `List Char`, Python dicts as association
lists (insertion-ordered, unique keys maintained by an update function
mirroring dict assignment), Python floats as exact rationals, and the
network as an oracle mapping a request-step index to its outcome.
-/

/-- Python strings are modelled as lists of characters. -/
abbrev Str := List Char

/-- The characters Python's `str.strip()` removes (ASCII whitespace). -/
def pyIsSpace (c : Char) : Bool :=
  c = ' ' || c = '\t' || c = '\n' || c = '\r' ||
  c = Char.ofNat 11 || c = Char.ofNat 12

/-- Python `str.strip()`: drop whitespace from both ends. -/
def pyStrip (s : Str) : Str :=
  ((s.dropWhile pyIsSpace).reverse.dropWhile pyIsSpace).reverse

/-- Python `str.upper()` (ASCII model). -/
def pyUpper (s : Str) : Str := s.map Char.toUpper

/-- Python `str.lower()` (ASCII model). -/
def pyLower (s : Str) : Str := s.map Char.toLower

/-- Whether `pat` occurs at the very beginning of `s`. -/
def headIs (pat s : Str) : Bool := s.take pat.length = pat

/-- Whether `pat` occurs in `s` at index `i` (as a contiguous substring). -/
def occursAtB (pat s : Str) (i : Nat) : Bool := headIs pat (s.drop i)

/-- Smallest index `≥ base` at which `pat` occurs in the suffix scanned;
`base` is the index of the head of the scanned suffix in the whole text. -/
def findAux (pat : Str) : Str → Nat → Option Nat
  | [], base => if headIs pat [] then some base else none
  | c :: rest, base =>
      if headIs pat (c :: rest) then some base else findAux pat rest (base + 1)

/-- Index of the first occurrence of `pat` in `s` (Python `str.find` /
leftmost regex match position for a literal pattern). -/
def findSub (pat s : Str) : Option Nat := findAux pat s 0

/-- Index of the first occurrence of `pat` in `s` at an index `≥ k`. -/
def findFrom (pat s : Str) (k : Nat) : Option Nat :=
  (findSub pat (s.drop k)).map (· + k)

/-- Whether `pat` occurs anywhere in `s` (Python's `in` on strings). -/
def containsSub (pat s : Str) : Bool := (findSub pat s).isSome

/-- Fuel-indexed scan behind `replaceAll`; the fuel only makes the
recursion structural, `replaceAll` always supplies enough of it. -/
def replaceAllFuel (pat rep : Str) : Nat → Str → Str
  | 0, s => s
  | _ + 1, [] => []
  | fuel + 1, c :: rest =>
      if pat ≠ [] ∧ headIs pat (c :: rest) then
        rep ++ replaceAllFuel pat rep fuel ((c :: rest).drop pat.length)
      else
        c :: replaceAllFuel pat rep fuel rest

/-- Python `str.replace(pat, rep)`: left-to-right, non-overlapping
replacement of every occurrence. An empty pattern is treated as
occurring nowhere (every pattern built by this program is non-empty). -/
def replaceAll (pat rep s : Str) : Str := replaceAllFuel pat rep s.length s

/-!  Basic facts about occurrence scanning.  -/

theorem headIs_iff (pat s : Str) : headIs pat s = true ↔ s.take pat.length = pat := by
  simp [headIs]

theorem headIs_nil (pat : Str) : headIs pat [] = true ↔ pat = [] := by
  constructor
  · intro h
    have := (headIs_iff pat []).mp h
    simpa using this.symm
  · intro h; subst h; simp [headIs]

theorem occursAtB_succ (pat : Str) (c : Char) (rest : Str) (k : Nat) :
    occursAtB pat (c :: rest) (k + 1) = occursAtB pat rest k := by
  simp [occursAtB]

theorem occursAtB_zero (pat s : Str) : occursAtB pat s 0 = headIs pat s := by
  simp [occursAtB]

theorem findAux_some (pat : Str) :
    ∀ (s : Str) (base j : Nat), findAux pat s base = some j →
      base ≤ j ∧ occursAtB pat s (j - base) = true ∧
        ∀ k, k < j - base → occursAtB pat s k = false := by
  intro s
  induction s with
  | nil =>
      intro base j h
      simp only [findAux] at h
      by_cases hp : headIs pat [] = true
      · simp [hp] at h
        subst h
        refine ⟨le_refl _, ?_, ?_⟩
        · simpa [occursAtB] using hp
        · intro k hk; omega
      · simp [hp] at h
  | cons c rest ih =>
      intro base j h
      simp only [findAux] at h
      by_cases hp : headIs pat (c :: rest) = true
      · simp [hp] at h
        subst h
        refine ⟨le_refl _, ?_, ?_⟩
        · simpa [occursAtB] using hp
        · intro k hk; omega
      · simp [hp] at h
        obtain ⟨hle, hocc, hmin⟩ := ih (base + 1) j h
        refine ⟨by omega, ?_, ?_⟩
        · have : j - base = (j - (base + 1)) + 1 := by omega
          rw [this, occursAtB_succ]
          exact hocc
        · intro k hk
          cases k with
          | zero => simpa [occursAtB_zero] using eq_false_of_ne_true hp
          | succ m =>
              rw [occursAtB_succ]
              exact hmin m (by omega)

theorem findAux_none (pat : Str) :
    ∀ (s : Str) (base : Nat), findAux pat s base = none →
      ∀ k, occursAtB pat s k = false := by
  intro s
  induction s with
  | nil =>
      intro base h k
      simp only [findAux] at h
      by_cases hp : headIs pat [] = true
      · simp [hp] at h
      · cases k with
        | zero => simpa [occursAtB_zero] using eq_false_of_ne_true hp
        | succ m =>
            simp only [occursAtB, List.drop_nil]
            simpa [occursAtB] using eq_false_of_ne_true hp
  | cons c rest ih =>
      intro base h k
      simp only [findAux] at h
      by_cases hp : headIs pat (c :: rest) = true
      · simp [hp] at h
      · simp [hp] at h
        cases k with
        | zero => simpa [occursAtB_zero] using eq_false_of_ne_true hp
        | succ m => rw [occursAtB_succ]; exact ih (base + 1) h m

theorem findSub_some (pat s : Str) (i : Nat) (h : findSub pat s = some i) :
    occursAtB pat s i = true ∧ ∀ k, k < i → occursAtB pat s k = false := by
  obtain ⟨_, hocc, hmin⟩ := findAux_some pat s 0 i h
  simpa using ⟨hocc, fun k hk => hmin k (by omega)⟩

theorem findSub_none (pat s : Str) (h : findSub pat s = none) :
    ∀ k, occursAtB pat s k = false :=
  findAux_none pat s 0 h

theorem occursAtB_drop (pat s : Str) (k m : Nat) :
    occursAtB pat (s.drop k) m = occursAtB pat s (k + m) := by
  simp [occursAtB, List.drop_drop, Nat.add_comm]

example : findSub "lo".toList "hello".toList = some 3 := by decide
example : occursAtB "lo".toList "hello".toList 3 = true := by decide
example : containsSub "ell".toList "hello".toList = true := by decide
example : replaceAll "ab".toList "X".toList "zababy".toList = "zXXy".toList := by decide
example : pyStrip "  hi \t".toList = "hi".toList := by decide

theorem findFrom_some (pat s : Str) (k j : Nat) (h : findFrom pat s k = some j) :
    k ≤ j ∧ occursAtB pat s j = true ∧
      ∀ m, k ≤ m → m < j → occursAtB pat s m = false := by
  simp only [findFrom, Option.map_eq_some'] at h
  obtain ⟨m0, hfind, rfl⟩ := h
  obtain ⟨hocc, hmin⟩ := findSub_some pat (s.drop k) m0 hfind
  rw [occursAtB_drop] at hocc
  refine ⟨by omega, by rwa [Nat.add_comm] at hocc, ?_⟩
  intro m hkm hmj
  have := hmin (m - k) (by omega)
  rw [occursAtB_drop] at this
  have hmk : k + (m - k) = m := by omega
  rwa [hmk] at this

theorem findFrom_none (pat s : Str) (k : Nat) (h : findFrom pat s k = none) :
    ∀ m, k ≤ m → occursAtB pat s m = false := by
  simp only [findFrom, Option.map_eq_none'] at h
  intro m hkm
  have := findSub_none pat (s.drop k) h (m - k)
  rw [occursAtB_drop] at this
  have hmk : k + (m - k) = m := by omega
  rwa [hmk] at this

theorem containsSub_eq_false_iff (pat s : Str) :
    containsSub pat s = false ↔ ∀ k, occursAtB pat s k = false := by
  constructor
  · intro h k
    cases hf : findSub pat s with
    | none => exact findSub_none pat s hf k
    | some i => rw [containsSub, hf] at h; cases h
  · intro h
    cases hf : findSub pat s with
    | none => simp [containsSub, hf]
    | some i =>
        obtain ⟨hocc, _⟩ := findSub_some pat s i hf
        rw [h i] at hocc
        cases hocc

/-!
## `HttpClient.extract_substring` (src/utils/http_client.py, lines 203-222)

The source builds the regex `re.escape(start)(.*?)re.escape(end)` and runs
`re.search` with `DOTALL`.  For a literal (escaped) pattern with one lazy
gap, `re.search` semantics are: the match position is the least `i` at
which `start` occurs with some occurrence of `end` at an index
`≥ i + len(start)`; the gap then ends at the first such occurrence of
`end` (lazy quantifier).  Because any occurrence of `end` lying after a
later occurrence of `start` also lies after the first occurrence of
`start`, that least `i` is simply the first occurrence of `start`
(provided `end` occurs after it); the embedding computes exactly that.
-/
def extract_substring (text s e : Str) : Option Str :=
  if text = [] ∨ s = [] ∨ e = [] then none
  else
    (findSub s text).bind fun i =>
      (findFrom e text (i + s.length)).map fun j =>
        pyStrip ((text.drop (i + s.length)).take (j - (i + s.length)))

example : extract_substring "xxxAhelloBxxx".toList "A".toList "B".toList
    = some "hello".toList := by decide
example : extract_substring "pre<v>\n w \n</v>post".toList "<v>".toList "</v>".toList
    = some "w".toList := by decide

theorem extract_substring_empty_delims (t e s : Str) :
    extract_substring t [] e = none ∧ extract_substring t s [] = none := by
  constructor <;> simp [extract_substring]

theorem extract_substring_some (t s e r : Str)
    (h : extract_substring t s e = some r) :
    s ≠ [] ∧ e ≠ [] ∧ ∃ i j,
      occursAtB s t i = true ∧ (∀ i', i' < i → occursAtB s t i' = false) ∧
      i + s.length ≤ j ∧ occursAtB e t j = true ∧
      (∀ j', i + s.length ≤ j' → j' < j → occursAtB e t j' = false) ∧
      r = pyStrip ((t.drop (i + s.length)).take (j - (i + s.length))) := by
  simp only [extract_substring] at h
  by_cases hguard : t = [] ∨ s = [] ∨ e = []
  · simp [hguard] at h
  · simp only [hguard, if_false, Option.bind_eq_some, Option.map_eq_some'] at h
    push_neg at hguard
    obtain ⟨_, hs, he⟩ := hguard
    obtain ⟨i, hfs, j, hff, hr⟩ := h
    obtain ⟨hocc_s, hmin_s⟩ := findSub_some s t i hfs
    obtain ⟨hle, hocc_e, hmin_e⟩ := findFrom_some e t (i + s.length) j hff
    exact ⟨hs, he, i, j, hocc_s, fun i' hi' => hmin_s i' hi', hle,
      hocc_e, hmin_e, hr.symm⟩

theorem extract_substring_none_of_no_match (t s e : Str)
    (h : ∀ i j, occursAtB s t i = true → occursAtB e t j = true →
          i + s.length ≤ j → False) :
    extract_substring t s e = none := by
  simp only [extract_substring]
  by_cases hguard : t = [] ∨ s = [] ∨ e = []
  · simp [hguard]
  · simp only [hguard, if_false]
    cases hfs : findSub s t with
    | none => simp [hfs]
    | some i =>
        cases hff : findFrom e t (i + s.length) with
        | none => simp [hfs, hff]
        | some j =>
            obtain ⟨hocc_s, _⟩ := findSub_some s t i hfs
            obtain ⟨hle, hocc_e, _⟩ := findFrom_some e t (i + s.length) j hff
            exact absurd (h i j hocc_s hocc_e hle) (by simp)

/-!
## `HttpClient._replace_variables` (src/utils/http_client.py, lines 369-393)

`result = text.replace('{USERNAME}', username).replace('{PASSWORD}', password)`
then, for each `(name, value)` of `captured_data` in insertion order,
`result.replace('{NAME}', v)` for the upper-cased, lower-cased, and stored
spellings of the name, in that order.
-/

/-- The literal marker `'{' + name + '}'`. -/
def braced (n : Str) : Str := '{' :: (n ++ ['}'])

/-- One iteration of the captured-variables loop of `_replace_variables`. -/
def capStep (acc : Str) (nv : Str × Str) : Str :=
  replaceAll (braced nv.1) nv.2
    (replaceAll (braced (pyLower nv.1)) nv.2
      (replaceAll (braced (pyUpper nv.1)) nv.2 acc))

/-- Embedding of `HttpClient._replace_variables` on a string input (non-string inputs
pass through unchanged at the `_prepare_request_data` level). -/
def replace_variables (username password : Str) (captured : List (Str × Str))
    (text : Str) : Str :=
  captured.foldl capStep
    (replaceAll (braced "PASSWORD".toList) password
      (replaceAll (braced "USERNAME".toList) username text))

/-- Every placeholder marker `_replace_variables` would rewrite, for a
given captured-data mapping. -/
def markersOf (captured : List (Str × Str)) : List Str :=
  braced "USERNAME".toList :: braced "PASSWORD".toList ::
    captured.flatMap (fun nv => [braced (pyUpper nv.1), braced (pyLower nv.1), braced nv.1])

example : replace_variables "u".toList "pw".toList [("tok".toList, "T9".toList)]
    "a={USERNAME}&b={PASSWORD}&c={TOK}{tok}".toList = "a=u&b=pw&c=T9T9".toList := by
  decide

theorem replaceAllFuel_id (pat rep : Str) :
    ∀ (fuel : Nat) (s : Str), containsSub pat s = false →
      replaceAllFuel pat rep fuel s = s := by
  intro fuel
  induction fuel with
  | zero => intro s _; rfl
  | succ n ih =>
      intro s hs
      cases s with
      | nil => rfl
      | cons c rest =>
          have hall := (containsSub_eq_false_iff pat (c :: rest)).mp hs
          have hhead : headIs pat (c :: rest) = false := by
            have := hall 0
            rwa [occursAtB_zero] at this
          have hrest : containsSub pat rest = false := by
            rw [containsSub_eq_false_iff]
            intro k
            have := hall (k + 1)
            rwa [occursAtB_succ] at this
          simp only [replaceAllFuel, hhead]
          simp [ih rest hrest]

theorem replaceAll_id (pat rep s : Str) (h : containsSub pat s = false) :
    replaceAll pat rep s = s :=
  replaceAllFuel_id pat rep s.length s h

theorem capStep_id (r : Str) (nv : Str × Str)
    (h1 : containsSub (braced (pyUpper nv.1)) r = false)
    (h2 : containsSub (braced (pyLower nv.1)) r = false)
    (h3 : containsSub (braced nv.1) r = false) :
    capStep r nv = r := by
  unfold capStep
  rw [replaceAll_id _ _ _ h1, replaceAll_id _ _ _ h2, replaceAll_id _ _ _ h3]

theorem foldl_capStep_id (captured : List (Str × Str)) :
    ∀ r : Str,
      (∀ nv ∈ captured, containsSub (braced (pyUpper nv.1)) r = false ∧
        containsSub (braced (pyLower nv.1)) r = false ∧
        containsSub (braced nv.1) r = false) →
      captured.foldl capStep r = r := by
  induction captured with
  | nil => intro r _; rfl
  | cons nv rest ih =>
      intro r h
      obtain ⟨h1, h2, h3⟩ := h nv (by simp)
      have hstep : capStep r nv = r := capStep_id r nv h1 h2 h3
      simp only [List.foldl_cons, hstep]
      exact ih r (fun x hx => h x (by simp [hx]))

theorem replace_variables_fixed (username password : Str)
    (captured : List (Str × Str)) (r : Str)
    (h : ∀ m ∈ markersOf captured, containsSub m r = false) :
    replace_variables username password captured r = r := by
  have hu : containsSub (braced "USERNAME".toList) r = false :=
    h _ (by simp [markersOf])
  have hp : containsSub (braced "PASSWORD".toList) r = false :=
    h _ (by simp [markersOf])
  unfold replace_variables
  rw [replaceAll_id _ _ _ hu, replaceAll_id _ _ _ hp]
  refine foldl_capStep_id captured r ?_
  intro nv hnv
  refine ⟨h _ ?_, h _ ?_, h _ ?_⟩ <;>
    · simp only [markersOf, List.mem_cons, List.mem_flatMap]
      right; right
      exact ⟨nv, hnv, by simp⟩

/-!
## Parsed JSON values and `HttpClient._check_conditions`
(src/utils/http_client.py, lines 395-465)

A parsed JSON document is a tree of strings, numbers, booleans, null,
arrays and objects (Python dicts, modelled as insertion-ordered
association lists).  JSON numbers are modelled as integers.
-/
inductive JVal where
  | jstr (s : Str)
  | jnum (n : Int)
  | jbool (b : Bool)
  | jnull
  | jobj (fields : List (Str × JVal))
  | jarr (elems : List JVal)

/-- Decimal rendering of an integer (Python `str` on `int`). -/
def intStr (n : Int) : Str :=
  if n < 0 then '-' :: Nat.toDigits 10 n.natAbs else Nat.toDigits 10 n.natAbs

/-- Join a list of strings with a separator (Python `sep.join`). -/
def joinSep (sep : Str) : List Str → Str
  | [] => []
  | [x] => x
  | x :: rest => x ++ sep ++ joinSep sep rest

/-- Python `repr` of a string: the content between single quotes
(escaping is not modelled; no claim depends on the rendering). -/
def quoteStr (s : Str) : Str := Char.ofNat 39 :: (s ++ [Char.ofNat 39])

mutual

/-- Python `repr(value)` on a parsed-JSON value, as used by Python's
container printing. -/
def pyReprJ : JVal → Str
  | .jstr s => quoteStr s
  | .jnum n => intStr n
  | .jbool b => if b then "True".toList else "False".toList
  | .jnull => "None".toList
  | .jobj fields => '{' :: (pyReprFields fields ++ ['}'])
  | .jarr elems => '[' :: (pyReprElems elems ++ [']'])

/-- Comma-joined `key: value` renderings of a dict's entries. -/
def pyReprFields : List (Str × JVal) → Str
  | [] => []
  | [kv] => quoteStr kv.1 ++ ": ".toList ++ pyReprJ kv.2
  | kv :: rest =>
      quoteStr kv.1 ++ ": ".toList ++ pyReprJ kv.2 ++ ", ".toList ++
        pyReprFields rest

/-- Comma-joined renderings of a list's elements. -/
def pyReprElems : List JVal → Str
  | [] => []
  | [v] => pyReprJ v
  | v :: rest => pyReprJ v ++ ", ".toList ++ pyReprElems rest

end

/-- Python `str(value)` on a parsed-JSON value: a string is itself, any
other value is rendered like `repr`. -/
def pyStr : JVal → Str
  | .jstr s => s
  | v => pyReprJ v

/-- Digit-string to number (no sign); `none` unless non-empty and all
digits. -/
def digitsToNat (cs : Str) : Option Nat :=
  if cs ≠ [] ∧ cs.all Char.isDigit then
    some (cs.foldl (fun a c => a * 10 + (c.toNat - 48)) 0)
  else none

/-- Python `int(s)` on a string: optional surrounding whitespace, an
optional sign, then decimal digits; anything else raises, which the
caller turns into `none` (digit-group underscores are not modelled;
no workflow value uses them). -/
def pyParseInt (s : Str) : Option Int :=
  match pyStrip s with
  | '+' :: rest => (digitsToNat rest).map Int.ofNat
  | '-' :: rest => (digitsToNat rest).map fun n => -(n : Int)
  | rest => (digitsToNat rest).map Int.ofNat

example : pyParseInt " 200 ".toList = some 200 := by decide
example : pyParseInt "abc".toList = none := by decide
example : pyParseInt "-12".toList = some (-12) := by decide

/-- Python `path.split('.')`: always at least one (possibly empty) part. -/
def splitOnDot : Str → List Str
  | [] => [[]]
  | c :: rest =>
      if c = '.' then [] :: splitOnDot rest
      else
        match splitOnDot rest with
        | [] => [[c]]
        | g :: gs => (c :: g) :: gs

example : splitOnDot "a.b".toList = [['a'], ['b']] := by decide
example : splitOnDot "".toList = [[]] := by decide

/-- First-match lookup in a dict modelled as an association list
(`part in current` / `current[part]`). -/
def lookupKey (fields : List (Str × JVal)) (k : Str) : Option JVal :=
  match fields with
  | [] => none
  | (k', v) :: rest => if k' = k then some v else lookupKey rest k

/-- The `json_contains` path walk of `_check_conditions`: empty parts are
skipped, a missing key or a non-dict intermediate fails the rule. -/
def navigatePath : JVal → List Str → Option JVal
  | v, [] => some v
  | v, p :: ps =>
      if p = [] then navigatePath v ps
      else
        match v with
        | .jobj fields =>
            match lookupKey fields p with
            | some v2 => navigatePath v2 ps
            | none => none
        | _ => none

/-- One success/failure rule: `{type, value, path}` with `''` defaults
(`condition.get('type', '')` etc.). -/
structure Condition where
  ctype : Str
  value : Str
  path : Str
deriving DecidableEq

/-- A `requests.Response` as far as this program reads it: body text,
status code, and the result of `response.json()` (`none` when parsing
raises; the code then uses `{}`). -/
structure OkResponse where
  text : Str
  status_code : Int
  jsonParsed : Option JVal

/-- What a request returns to `check_with_config`: a real response, or
the error dict `{'status_code': 0, 'text': msg, 'error': True,
'error_message': msg}` built by the retry loop of `HttpClient.get` /
`post` / `put` / `delete` after exhausting retries. -/
inductive RespObj where
  | ok (r : OkResponse)
  | errDict (msg : Str)

/-- The response properties `_check_conditions` extracts: `(text,
status_code, json)` with the error-dict fallback branch. -/
def respProps : RespObj → Str × Int × JVal
  | .ok r => (r.text, r.status_code, r.jsonParsed.getD (.jobj []))
  | .errDict msg => (msg, 0, .jobj [])

/-- The body of the per-rule check inside `_check_conditions`: whether
this single rule lets the loop continue.  A rule of unrecognized type
matches no branch and therefore never fails. -/
def checkCondition (rtext : Str) (status : Int) (jdata : JVal) (c : Condition) : Bool :=
  let t := pyLower c.ctype
  if t = "contains".toList then containsSub c.value rtext
  else if t = "not_contains".toList then ! containsSub c.value rtext
  else if t = "status_code".toList then
    match pyParseInt c.value with
    | some n => status = n
    | none => false
  else if t = "json_contains".toList then
    match navigatePath jdata (splitOnDot c.path) with
    | some (.jstr s) => containsSub c.value s
    | some v => containsSub c.value (pyStr v)
    | none => false
  else true

/-- The rule loop of `_check_conditions`: the first failing rule returns
`False` for the whole evaluation, an exhausted loop returns `True`. -/
def checkAllConditions (rtext : Str) (status : Int) (jdata : JVal) :
    List Condition → Bool
  | [] => true
  | c :: cs =>
      if checkCondition rtext status jdata c then
        checkAllConditions rtext status jdata cs
      else false

/-- Embedding of `HttpClient._check_conditions`: an empty rule list is `False`,
otherwise the conjunction of the rules. -/
def check_conditions (resp : RespObj) (conds : List Condition) : Bool :=
  if conds = [] then false
  else
    let props := respProps resp
    checkAllConditions props.1 props.2.1 props.2.2 conds

theorem checkAllConditions_eq_all (rtext : Str) (status : Int) (jdata : JVal) :
    ∀ conds : List Condition,
      checkAllConditions rtext status jdata conds
        = conds.all (checkCondition rtext status jdata) := by
  intro conds
  induction conds with
  | nil => rfl
  | cons c cs ih =>
      simp only [checkAllConditions, List.all_cons]
      by_cases hc : checkCondition rtext status jdata c
      · simp [hc, ih]
      · simp [hc]

example :
    check_conditions (.ok ⟨"login ok".toList, 200, none⟩)
      [⟨"contains".toList, "ok".toList, [] ⟩, ⟨"status_code".toList, "200".toList, []⟩]
      = true := by decide
example :
    check_conditions (.ok ⟨"login ok".toList, 200, none⟩)
      [⟨"status_code".toList, "abc".toList, []⟩] = false := by decide
example :
    check_conditions (.ok ⟨"x".toList, 200,
        some (.jobj [("a".toList, .jobj [("b".toList, .jstr "tok77".toList)])])⟩)
      [⟨"json_contains".toList, "tok".toList, "a.b".toList⟩] = true := by decide

/-!
## `HttpClient._prepare_request_data` (src/utils/http_client.py, lines 326-367)

Dicts have each key substituted and each value substituted according to
its type: strings are substituted, nested dicts processed recursively,
list items are substituted when strings, processed when dicts, and left
unchanged otherwise (this includes lists nested inside lists).
Non-dict arguments are returned as-is.
-/

mutual

/-- Embedding of `HttpClient._prepare_request_data`. -/
def prepare_request_data (u p : Str) (cap : List (Str × Str)) : JVal → JVal
  | .jobj fields => .jobj (prepFields u p cap fields)
  | v => v

/-- The key/value loop of `_prepare_request_data`. -/
def prepFields (u p : Str) (cap : List (Str × Str)) :
    List (Str × JVal) → List (Str × JVal)
  | [] => []
  | (k, v) :: rest =>
      (replace_variables u p cap k, prepValue u p cap v) :: prepFields u p cap rest

/-- Per-value dispatch of `_prepare_request_data`. -/
def prepValue (u p : Str) (cap : List (Str × Str)) : JVal → JVal
  | .jstr s => .jstr (replace_variables u p cap s)
  | .jobj fields => .jobj (prepFields u p cap fields)
  | .jarr items => .jarr (prepItems u p cap items)
  | v => v

/-- Per-item dispatch inside list values of `_prepare_request_data`. -/
def prepItems (u p : Str) (cap : List (Str × Str)) : List JVal → List JVal
  | [] => []
  | item :: rest =>
      (match item with
        | .jstr s => JVal.jstr (replace_variables u p cap s)
        | .jobj fields => JVal.jobj (prepFields u p cap fields)
        | other => other) :: prepItems u p cap rest

end

/-!
## `HttpClient.check_with_config` (src/utils/http_client.py, lines 224-324)

The network is abstracted by an oracle `net : Nat → RespObj` giving the
outcome of the `i`-th issued request: the `requests` library response, or
the error dict that `get`/`post`/`put`/`delete` return after exhausting
their retries.  Everything else — substitution, method dispatch, the
error-dict check, last-step capture and condition evaluation, early
returns — is translated directly.
-/

/-- One request step: `method`/`url`/`headers`/`data`/`json`/`verify`
with their `req_config.get` defaults already applied. -/
structure ReqConfig where
  method : Str
  url : Str
  headers : JVal
  data : JVal
  jsonData : Option JVal
  verify : Bool

/-- One `{name, start, end}` capture rule. -/
structure CaptureRule where
  name : Str
  startDelim : Str
  endDelim : Str

/-- A loaded workflow configuration. -/
structure Config where
  requests : List ReqConfig
  capture : List CaptureRule
  success_conditions : List Condition
  failure_conditions : List Condition

/-- The result dict built by `check_with_config`. -/
structure CheckResult where
  success : Bool
  failure : Bool
  error : Bool
  error_message : Str
  captured_data : List (Str × Str)
deriving DecidableEq

/-- The initial result dict of `check_with_config`. -/
def initCheckResult : CheckResult :=
  { success := false, failure := false, error := false,
    error_message := [], captured_data := [] }

/-- Python dict assignment `m[k] = v` on an association list: overwrite
the existing entry in place, or append a new one. -/
def setKey (m : List (Str × Str)) (k v : Str) : List (Str × Str) :=
  match m with
  | [] => [(k, v)]
  | (k', v') :: rest => if k' = k then (k, v) :: rest else (k', v') :: setKey rest k v

/-- Python dict lookup `m.get(k)` on an association list. -/
def lookupStr (m : List (Str × Str)) (k : Str) : Option Str :=
  match m with
  | [] => none
  | (k', v') :: rest => if k' = k then some v' else lookupStr rest k

/-- Whether the upper-cased method hits one of the `if`/`elif` request
branches of `check_with_config` (GET/POST/PUT/DELETE). -/
def methodSupported (m : Str) : Bool :=
  m = "GET".toList || m = "POST".toList || m = "PUT".toList || m = "DELETE".toList

/-- One capture rule applied to the final response text, updating the
running `captured_data` dict and the result dict in lockstep; rules with
an empty name or delimiter, failed extractions, and values that strip to
the empty (falsy) string all leave both unchanged. -/
def captureStep (response_text : Str)
    (st : List (Str × Str) × CheckResult) (rule : CaptureRule) :
    List (Str × Str) × CheckResult :=
  if rule.name ≠ [] ∧ rule.startDelim ≠ [] ∧ rule.endDelim ≠ [] then
    match extract_substring response_text rule.startDelim rule.endDelim with
    | some v =>
        if v ≠ [] then
          (setKey st.1 rule.name v,
            { st.2 with captured_data := setKey st.2.captured_data rule.name v })
        else st
    | none => st
  else st

/-- The request loop of `check_with_config`: `i` is the enumeration
index, the remaining steps are processed in order, `cap` is the running
`captured_data` dict and `res` the result dict. -/
def runSteps (net : Nat → RespObj) (u p : Str) (cfg : Config) :
    Nat → List ReqConfig → List (Str × Str) → CheckResult → CheckResult
  | _, [], _, res => res
  | i, req :: rest, cap, res =>
      let method := pyUpper req.method
      let _url := replace_variables u p cap req.url
      let _headers := prepare_request_data u p cap req.headers
      let _data :=
        match req.data with
        | .jobj fields => prepare_request_data u p cap (.jobj fields)
        | .jstr s => JVal.jstr (replace_variables u p cap s)
        | other => other
      let _json := req.jsonData.map fun j =>
        match j with
        | .jobj fields => prepare_request_data u p cap (.jobj fields)
        | other => other
      if methodSupported method then
        match net i with
        | .errDict msg =>
            { res with error := true, error_message := msg }
        | .ok r =>
            let response_text := r.text
            let isLast := i = cfg.requests.length - 1
            let st2 :=
              if isLast then cfg.capture.foldl (captureStep response_text) (cap, res)
              else (cap, res)
            let res3 :=
              if isLast then
                let resS :=
                  if cfg.success_conditions ≠ [] then
                    { st2.2 with success := check_conditions (.ok r) cfg.success_conditions }
                  else st2.2
                if cfg.failure_conditions ≠ [] then
                  { resS with failure := check_conditions (.ok r) cfg.failure_conditions }
                else resS
              else st2.2
            runSteps net u p cfg (i + 1) rest st2.1 res3
      else
        { res with
          error := true
          error_message := "Unsupported HTTP method: ".toList ++ method }

/-- Embedding of `HttpClient.check_with_config`. -/
def check_with_config (net : Nat → RespObj) (u p : Str) (cfg : Config) :
    CheckResult :=
  runSteps net u p cfg 0 cfg.requests [] initCheckResult

/-!
## `ConsoleChecker` statistics and result classification
(src/cli_mode.py, lines 42-51 and 304-356; the `ConsoleChecker` of
src/cli_checker.py, lines 335-343, 597-629 and 631-649, has the same
stats dict and the same `process_result`, and an `update_stats` that
differs only by an `int(...)` truncation.)

Wall-clock times and the smoothed rate are Python floats, modelled as
exact rationals.
-/

/-- The `self.stats` dict: exactly the eight keys of
`ConsoleChecker.__init__` — there is no separate error counter. -/
structure Stats where
  checked : Nat
  hits : Nat
  tocheck : Nat
  deads : Nat
  start_time : Rat
  cpm : Rat
  last_checked : Nat
  last_cpm_update : Rat
deriving DecidableEq

/-- Mutable `ConsoleChecker` state touched by `process_result`: the
stats dict and the `hits` / `free` result lists. -/
structure CheckerState where
  stats : Stats
  hitsList : List Str
  freeList : List Str
deriving DecidableEq

/-- The hit display line: the combo line, then `" | "`-joined
`name: value` pairs when any data was captured. -/
def displayText (combo : Str) (captured : List (Str × Str)) : Str :=
  let parts := captured.map fun nv => nv.1 ++ ": ".toList ++ nv.2
  let capture_text := if parts ≠ [] then joinSep " | ".toList parts else []
  if capture_text ≠ [] then combo ++ " | ".toList ++ capture_text else combo

/-- Embedding of `ConsoleChecker.process_result`: errors and failures increment
`deads`, successes increment `hits` and record a display line, anything
else is appended to the `free` list. -/
def process_result (st : CheckerState) (result : CheckResult) (combo : Str) :
    CheckerState :=
  if result.error then
    { st with stats := { st.stats with deads := st.stats.deads + 1 } }
  else if result.success then
    { st with
      stats := { st.stats with hits := st.stats.hits + 1 }
      hitsList := st.hitsList ++ [displayText combo result.captured_data] }
  else if result.failure then
    { st with stats := { st.stats with deads := st.stats.deads + 1 } }
  else
    { st with freeList := st.freeList ++ [combo] }

/-- Python `int(x)` on a float: truncation toward zero. -/
def pyIntTrunc (x : Rat) : Int := if 0 ≤ x then ⌊x⌋ else -⌊-x⌋

/-- Embedding of `ConsoleChecker.update_stats` of src/cli_mode.py, lines 338-356,
called with the sampled wall-clock time. -/
def update_stats_cli_mode (current_time : Rat) (s : Stats) : Stats :=
  if current_time - s.last_cpm_update ≥ 1 then
    let checks_diff : Rat := (s.checked : Rat) - (s.last_checked : Rat)
    let new_cpm := checks_diff * 60
    { s with
      last_checked := s.checked
      last_cpm_update := current_time
      cpm := if s.cpm = 0 then new_cpm else s.cpm * (0.6 : Rat) + new_cpm * (0.4 : Rat) }
  else s

/-- Embedding of `ConsoleChecker.update_stats` of src/cli_checker.py, lines 631-649:
identical except the smoothed branch truncates with `int(...)`. -/
def update_stats_cli_checker (current_time : Rat) (s : Stats) : Stats :=
  if current_time - s.last_cpm_update ≥ 1 then
    let checks_diff : Rat := (s.checked : Rat) - (s.last_checked : Rat)
    let new_cpm := checks_diff * 60
    { s with
      last_checked := s.checked
      last_cpm_update := current_time
      cpm := if s.cpm = 0 then new_cpm
             else (pyIntTrunc (s.cpm * (0.6 : Rat) + new_cpm * (0.4 : Rat)) : Rat) }
  else s

/-!
## `HttpClient.get` retry loop (src/utils/http_client.py, lines 24-37, 61-94)

`__init__` fixes `retries = 3` and `retry_delay = 1`.  Each attempt of
the `for attempt in range(self.retries)` loop either returns the
response, or catches `(RequestException, Timeout)`; the last attempt's
exception is turned into the error dict, earlier ones are followed by
`time.sleep(self.retry_delay)`.  Attempts are abstracted by an oracle
`att : Nat → AttemptOutcome`; the model also records the sleeps
performed.  `post`/`put`/`delete` have the identical loop.
-/

/-- What one `self.session.get(...)` call does: return a response, or
raise a `RequestException`/`Timeout` whose `str(e)` is `msg`. -/
inductive AttemptOutcome where
  | ok (r : OkResponse)
  | exc (msg : Str)

/-- The `HttpClient` fields set in `__init__` that `get` reads. -/
structure HttpClientState where
  timeout : Rat
  verify : Bool
  retries : Nat
  retry_delay : Rat

/-- Embedding of `HttpClient.__init__(timeout=10, verify=False)`. -/
def HttpClient_init (timeout : Rat) : HttpClientState :=
  { timeout := timeout, verify := false, retries := 3, retry_delay := 1 }

/-- The retry loop of `HttpClient.get`: remaining iterations, current
attempt index, and the sleeps performed so far.  Returns `none` only
when the loop body never runs (`retries = 0`), where Python's `get`
falls through and returns `None`. -/
def getLoop (att : Nat → AttemptOutcome) (retries : Nat) (delay : Rat) :
    Nat → Nat → List Rat → Option RespObj × List Rat
  | 0, _, sleeps => (none, sleeps)
  | fuel + 1, attempt, sleeps =>
      match att attempt with
      | .ok r => (some (.ok r), sleeps)
      | .exc msg =>
          if attempt = retries - 1 then (some (.errDict msg), sleeps)
          else getLoop att retries delay fuel (attempt + 1) (sleeps ++ [delay])

/-- Embedding of `HttpClient.get` (the url/headers/params/verify arguments only feed
the attempt oracle): the returned value and the sleeps performed. -/
def http_get (att : Nat → AttemptOutcome) (st : HttpClientState) :
    Option RespObj × List Rat :=
  getLoop att st.retries st.retry_delay st.retries 0 []

/-!
## The worker scheduler (src/cli_mode.py, lines 140-276)

`check_combo` pre-loads a `queue.Queue` with the combo lines and starts
`T` copies of `worker_thread`.  Each worker loops: non-blocking
`queue.get` (an empty queue ends the worker), runs `check_account` and
`process_result` for the item, then executes

    with threading.Lock():
        self.stats['checked'] += 1

`threading.Lock()` constructs a fresh lock for each increment, so the
`with` block excludes nothing and the increment is an unguarded
read-modify-write: it is modelled as two separate atomic steps, a read
of `checked` and a write of the read value plus one.  `queue.get` is
internally locked and modelled as one atomic step.  Combo lines are
identified by numbers; `processed` is the history of items for which
`check_account` has run, in completion order.  Cancellation
(`pause_event`) is not exercised, matching the claim's "absent
cancellation" hypothesis.
-/

/-- The control point one worker is at. -/
inductive WPhase where
  | idle
  | loaded (item : Nat)
  | readChecked (item : Nat) (v : Nat)
  | finished
deriving DecidableEq

/-- Shared scheduler state: the queue, the shared `checked` counter, the
processing history, and every worker's phase. -/
structure SchedState where
  queue : List Nat
  checked : Nat
  processed : List Nat
  workers : List WPhase
deriving DecidableEq

/-- One scheduling step by worker `w`: dequeue (or exit on an empty
queue), process the held item and read `checked`, or write back the
incremented value. A finished or out-of-range worker does nothing. -/
def workerStep (s : SchedState) (w : Nat) : SchedState :=
  match s.workers.getD w .finished with
  | .finished => s
  | .idle =>
      match s.queue with
      | [] => { s with workers := s.workers.set w .finished }
      | item :: rest =>
          { s with queue := rest, workers := s.workers.set w (.loaded item) }
  | .loaded item =>
      { s with
        processed := s.processed ++ [item]
        workers := s.workers.set w (.readChecked item s.checked) }
  | .readChecked _ v =>
      { s with checked := v + 1, workers := s.workers.set w .idle }

/-- Run the workers under an explicit interleaving: each schedule entry
names the worker that takes its next step. -/
def runSched (s : SchedState) : List Nat → SchedState
  | [] => s
  | w :: ws => runSched (workerStep s w) ws

/-- The state after `check_combo` fills the queue and starts `t`
workers. -/
def initSched (combos : List Nat) (t : Nat) : SchedState :=
  { queue := combos, checked := 0, processed := [], workers := List.replicate t .idle }

/-- The item a worker currently holds (dequeued, not yet recorded as
processed). -/
def heldMs : WPhase → Multiset Nat
  | .loaded item => {item}
  | _ => 0

/-- Every combo item is in exactly one place: still queued, held by a
worker, or already processed. -/
def carried (s : SchedState) : Multiset Nat :=
  (s.queue : Multiset Nat) + (s.workers.map heldMs).sum + (s.processed : Multiset Nat)

theorem coe_cons_msa (a : Nat) (l : List Nat) :
    ((a :: l : List Nat) : Multiset Nat) = {a} + (l : Multiset Nat) := by
  rw [Multiset.singleton_add, Multiset.cons_coe]

theorem coe_append_msa (l1 l2 : List Nat) :
    ((l1 ++ l2 : List Nat) : Multiset Nat)
      = (l1 : Multiset Nat) + (l2 : Multiset Nat) := by
  rw [← Multiset.coe_add]

theorem mapSum_set (f : WPhase → Multiset Nat) :
    ∀ (l : List WPhase) (w : Nat) (x : WPhase), w < l.length →
      ((l.set w x).map f).sum + f (l.getD w .finished) = (l.map f).sum + f x := by
  intro l
  induction l with
  | nil => intro w x h; cases h
  | cons a rest ih =>
      intro w x h
      cases w with
      | zero =>
          simp only [List.set_cons_zero, List.getD_cons_zero, List.map_cons,
            List.sum_cons]
          abel
      | succ n =>
          simp only [List.set_cons_succ, List.getD_cons_succ, List.map_cons,
            List.sum_cons]
          have h2 := ih n x (by simpa using h)
          calc f a + ((rest.set n x).map f).sum + f (rest.getD n .finished)
              = f a + (((rest.set n x).map f).sum + f (rest.getD n .finished)) := by
                abel
            _ = f a + ((rest.map f).sum + f x) := by rw [h2]
            _ = f a + (rest.map f).sum + f x := by abel

theorem getD_eq_finished_of_le (l : List WPhase) (w : Nat) (h : l.length ≤ w) :
    l.getD w .finished = .finished := by
  simp [List.getD, List.getElem?_eq_none h]

theorem workerStep_carried (s : SchedState) (w : Nat) :
    carried (workerStep s w) = carried s := by
  have hget := fun (x : WPhase) => mapSum_set heldMs s.workers w x
  unfold workerStep
  cases hw : s.workers.getD w .finished with
  | finished => rfl
  | idle =>
      have hlt : w < s.workers.length := by
        by_contra hge
        rw [getD_eq_finished_of_le s.workers w (by omega)] at hw
        cases hw
      cases hq : s.queue with
      | nil =>
          have h1 := hget .finished hlt
          rw [hw] at h1
          simp only [heldMs, add_zero] at h1
          unfold carried
          dsimp only
          rw [hq, h1]
      | cons item rest =>
          have h1 := hget (.loaded item) hlt
          rw [hw] at h1
          simp only [heldMs, add_zero] at h1
          unfold carried
          dsimp only
          rw [hq, coe_cons_msa, h1]
          abel
  | loaded item =>
      have hlt : w < s.workers.length := by
        by_contra hge
        rw [getD_eq_finished_of_le s.workers w (by omega)] at hw
        cases hw
      have h1 := hget (.readChecked item s.checked) hlt
      rw [hw] at h1
      simp only [heldMs, add_zero] at h1
      unfold carried
      dsimp only
      rw [coe_append_msa, Multiset.coe_singleton, ← h1]
      abel
  | readChecked it v =>
      have hlt : w < s.workers.length := by
        by_contra hge
        rw [getD_eq_finished_of_le s.workers w (by omega)] at hw
        cases hw
      have h1 := hget .idle hlt
      rw [hw] at h1
      simp only [heldMs, add_zero] at h1
      unfold carried
      dsimp only
      rw [h1]

theorem runSched_carried (ws : List Nat) :
    ∀ s : SchedState, carried (runSched s ws) = carried s := by
  induction ws with
  | nil => intro s; rfl
  | cons w rest ih =>
      intro s
      show carried (runSched (workerStep s w) rest) = carried s
      rw [ih (workerStep s w), workerStep_carried]

/-- Items are conserved: once the queue is drained and no worker still
holds an item, the processing history is exactly the initial queue, as a
multiset — every combo was handed to `check_account` exactly once. -/
theorem sched_exactly_once (combos : List Nat) (t : Nat) (ws : List Nat)
    (hq : (runSched (initSched combos t) ws).queue = [])
    (hw : ∀ ph ∈ (runSched (initSched combos t) ws).workers, heldMs ph = 0) :
    ((runSched (initSched combos t) ws).processed : Multiset Nat) = (combos : Multiset Nat) := by
  have hinv := runSched_carried ws (initSched combos t)
  unfold carried at hinv
  rw [hq] at hinv
  have hzero : ((runSched (initSched combos t) ws).workers.map heldMs).sum = 0 := by
    apply List.sum_eq_zero
    intro x hx
    simp only [List.mem_map] at hx
    obtain ⟨ph, hph, rfl⟩ := hx
    exact hw ph hph
  have hinit : ((List.replicate t WPhase.idle).map heldMs).sum = (0 : Multiset Nat) := by
    apply List.sum_eq_zero
    intro x hx
    simp only [List.mem_map, List.mem_replicate] at hx
    obtain ⟨ph, ⟨_, rfl⟩, rfl⟩ := hx
    rfl
  simp only [initSched] at hinv hzero ⊢
  rw [hzero, hinit] at hinv
  simpa using hinv

/-!  Step-by-step behaviour of the `check_with_config` request loop.  -/

theorem runSteps_nil (net : Nat → RespObj) (u p : Str) (cfg : Config)
    (i : Nat) (cap : List (Str × Str)) (res : CheckResult) :
    runSteps net u p cfg i [] cap res = res := rfl

theorem runSteps_unsupported (net : Nat → RespObj) (u p : Str) (cfg : Config)
    (i : Nat) (req : ReqConfig) (rest : List ReqConfig)
    (cap : List (Str × Str)) (res : CheckResult)
    (hm : methodSupported (pyUpper req.method) = false) :
    runSteps net u p cfg i (req :: rest) cap res
      = { res with
          error := true
          error_message := "Unsupported HTTP method: ".toList ++ pyUpper req.method } := by
  conv_lhs => unfold runSteps
  simp [hm]

theorem runSteps_err (net : Nat → RespObj) (u p : Str) (cfg : Config)
    (i : Nat) (req : ReqConfig) (rest : List ReqConfig)
    (cap : List (Str × Str)) (res : CheckResult) (msg : Str)
    (hm : methodSupported (pyUpper req.method) = true)
    (hr : net i = .errDict msg) :
    runSteps net u p cfg i (req :: rest) cap res
      = { res with error := true, error_message := msg } := by
  conv_lhs => unfold runSteps
  simp [hm, hr]

theorem runSteps_ok_mid (net : Nat → RespObj) (u p : Str) (cfg : Config)
    (i : Nat) (req : ReqConfig) (rest : List ReqConfig)
    (cap : List (Str × Str)) (res : CheckResult) (r : OkResponse)
    (hm : methodSupported (pyUpper req.method) = true)
    (hr : net i = .ok r)
    (hl : i ≠ cfg.requests.length - 1) :
    runSteps net u p cfg i (req :: rest) cap res
      = runSteps net u p cfg (i + 1) rest cap res := by
  conv_lhs => unfold runSteps
  simp [hm, hr, hl]

theorem runSteps_ok_last (net : Nat → RespObj) (u p : Str) (cfg : Config)
    (i : Nat) (req : ReqConfig) (rest : List ReqConfig)
    (cap : List (Str × Str)) (res : CheckResult) (r : OkResponse)
    (hm : methodSupported (pyUpper req.method) = true)
    (hr : net i = .ok r)
    (hl : i = cfg.requests.length - 1) :
    runSteps net u p cfg i (req :: rest) cap res
      = (let st2 := cfg.capture.foldl (captureStep r.text) (cap, res)
         let resS :=
           if cfg.success_conditions ≠ [] then
             { st2.2 with success := check_conditions (.ok r) cfg.success_conditions }
           else st2.2
         let res3 :=
           if cfg.failure_conditions ≠ [] then
             { resS with failure := check_conditions (.ok r) cfg.failure_conditions }
           else resS
         runSteps net u p cfg (i + 1) rest st2.1 res3) := by
  subst hl
  conv_lhs => unfold runSteps
  simp [hm, hr]

/-- If every step before `j` has a supported method, a non-error
response, and is not the final configured request, and step `j` has a
supported method but yields the error dict, the loop stops at `j` and
only sets `error` and `error_message` on the result it was given. -/
theorem runSteps_first_err (net : Nat → RespObj) (u p : Str) (cfg : Config) :
    ∀ (steps : List ReqConfig) (i j : Nat) (msg : Str)
      (cap : List (Str × Str)) (res : CheckResult),
      j < steps.length →
      (∀ k (hk : k < steps.length), k ≤ j →
        methodSupported (pyUpper (steps.get ⟨k, hk⟩).method) = true) →
      (∀ k, k < j → ∃ r, net (i + k) = .ok r) →
      (∀ k, k < j → i + k ≠ cfg.requests.length - 1) →
      net (i + j) = .errDict msg →
      runSteps net u p cfg i steps cap res
        = { res with error := true, error_message := msg } := by
  intro steps
  induction steps with
  | nil => intro i j msg cap res hj; cases hj
  | cons req rest ih =>
      intro i j msg cap res hj hms hok hnl herr
      cases j with
      | zero =>
          have hm := hms 0 (by simp) (le_refl 0)
          exact runSteps_err net u p cfg i req rest cap res msg hm
            (by simpa using herr)
      | succ n =>
          have hm := hms 0 (by simp) (by omega)
          obtain ⟨r, hr⟩ := hok 0 (by omega)
          have hnl0 := hnl 0 (by omega)
          rw [runSteps_ok_mid net u p cfg i req rest cap res r hm
            (by simpa using hr) (by simpa using hnl0)]
          refine ih (i + 1) n msg cap res (by simpa using hj) ?_ ?_ ?_ ?_
          · intro k hk hkn
            exact hms (k + 1) (by simpa using hk) (by omega)
          · intro k hk
            have := hok (k + 1) (by omega)
            simpa [Nat.add_comm, Nat.add_assoc, Nat.add_left_comm] using this
          · intro k hk
            have := hnl (k + 1) (by omega)
            simpa [Nat.add_comm, Nat.add_assoc, Nat.add_left_comm] using this
          · have : i + 1 + n = i + (n + 1) := by omega
            rw [this]
            exact herr

/-!  The captured dict only ever receives non-empty (truthy) values.  -/

theorem setKey_mem (k v : Str) :
    ∀ (m : List (Str × Str)) (nv : Str × Str),
      nv ∈ setKey m k v → nv ∈ m ∨ nv = (k, v) := by
  intro m
  induction m with
  | nil =>
      intro nv h
      simp only [setKey, List.mem_singleton] at h
      exact Or.inr h
  | cons kv rest ih =>
      intro nv h
      simp only [setKey] at h
      by_cases hk : kv.1 = k
      · rw [if_pos (by exact hk)] at h
        rcases List.mem_cons.mp h with h1 | h1
        · exact Or.inr h1
        · exact Or.inl (List.mem_cons.mpr (Or.inr h1))
      · rw [if_neg (by exact hk)] at h
        rcases List.mem_cons.mp h with h1 | h1
        · exact Or.inl (by simp [h1])
        · rcases ih nv h1 with h2 | h2
          · exact Or.inl (List.mem_cons.mpr (Or.inr h2))
          · exact Or.inr h2

theorem captureStep_nonempty (rt : Str) (st : List (Str × Str) × CheckResult)
    (rule : CaptureRule)
    (hst : ∀ nv ∈ st.2.captured_data, nv.2 ≠ ([] : Str)) :
    ∀ nv ∈ (captureStep rt st rule).2.captured_data, nv.2 ≠ ([] : Str) := by
  intro nv hnv
  unfold captureStep at hnv
  split at hnv
  · split at hnv
    · rename_i v hext
      split at hnv
      · rename_i hv
        dsimp only at hnv
        rcases setKey_mem rule.name v st.2.captured_data nv hnv with h1 | h1
        · exact hst nv h1
        · rw [h1]; exact hv
      · exact hst nv hnv
    · exact hst nv hnv
  · exact hst nv hnv

theorem foldl_captureStep_nonempty (rt : Str) :
    ∀ (rules : List CaptureRule) (st : List (Str × Str) × CheckResult),
      (∀ nv ∈ st.2.captured_data, nv.2 ≠ ([] : Str)) →
      ∀ nv ∈ (rules.foldl (captureStep rt) st).2.captured_data, nv.2 ≠ ([] : Str) := by
  intro rules
  induction rules with
  | nil => intro st hst; exact hst
  | cons rule rest ih =>
      intro st hst
      simp only [List.foldl_cons]
      exact ih (captureStep rt st rule) (captureStep_nonempty rt st rule hst)

theorem runSteps_captured_nonempty (net : Nat → RespObj) (u p : Str) (cfg : Config) :
    ∀ (steps : List ReqConfig) (i : Nat) (cap : List (Str × Str)) (res : CheckResult),
      (∀ nv ∈ res.captured_data, nv.2 ≠ ([] : Str)) →
      ∀ nv ∈ (runSteps net u p cfg i steps cap res).captured_data, nv.2 ≠ ([] : Str) := by
  intro steps
  induction steps with
  | nil => intro i cap res hres; simpa [runSteps_nil] using hres
  | cons req rest ih =>
      intro i cap res hres
      by_cases hm : methodSupported (pyUpper req.method) = true
      · cases hnet : net i with
        | errDict msg =>
            rw [runSteps_err net u p cfg i req rest cap res msg hm hnet]
            simpa using hres
        | ok r =>
            by_cases hl : i = cfg.requests.length - 1
            · rw [runSteps_ok_last net u p cfg i req rest cap res r hm hnet hl]
              simp only []
              apply ih
              have hfold := foldl_captureStep_nonempty r.text cfg.capture (cap, res) hres
              by_cases hs : cfg.success_conditions ≠ []
              · by_cases hf : cfg.failure_conditions ≠ []
                · simpa [hs, hf] using hfold
                · simpa [hs, hf] using hfold
              · by_cases hf : cfg.failure_conditions ≠ []
                · simpa [hs, hf] using hfold
                · simpa [hs, hf] using hfold
            · rw [runSteps_ok_mid net u p cfg i req rest cap res r hm hnet hl]
              exact ih (i + 1) cap res hres
      · rw [runSteps_unsupported net u p cfg i req rest cap res
            (by simpa using hm)]
        simpa using hres

/-- Every value stored in the outcome's `captured_data` is a non-empty
string: a capture whose extraction strips to the falsy empty string is
never stored. -/
theorem check_with_config_captured_nonempty (net : Nat → RespObj) (u p : Str)
    (cfg : Config) :
    ∀ nv ∈ (check_with_config net u p cfg).captured_data, nv.2 ≠ ([] : Str) := by
  apply runSteps_captured_nonempty
  intro nv hnv
  simp [initCheckResult] at hnv

theorem captureStep_fields (rt : Str) (st : List (Str × Str) × CheckResult)
    (rule : CaptureRule) :
    (captureStep rt st rule).2.success = st.2.success ∧
    (captureStep rt st rule).2.failure = st.2.failure ∧
    (captureStep rt st rule).2.error = st.2.error ∧
    (captureStep rt st rule).2.error_message = st.2.error_message := by
  unfold captureStep
  split
  · split
    · split
      · exact ⟨rfl, rfl, rfl, rfl⟩
      · exact ⟨rfl, rfl, rfl, rfl⟩
    · exact ⟨rfl, rfl, rfl, rfl⟩
  · exact ⟨rfl, rfl, rfl, rfl⟩

theorem foldl_captureStep_fields (rt : Str) :
    ∀ (rules : List CaptureRule) (st : List (Str × Str) × CheckResult),
      (rules.foldl (captureStep rt) st).2.success = st.2.success ∧
      (rules.foldl (captureStep rt) st).2.failure = st.2.failure ∧
      (rules.foldl (captureStep rt) st).2.error = st.2.error ∧
      (rules.foldl (captureStep rt) st).2.error_message = st.2.error_message := by
  intro rules
  induction rules with
  | nil => intro st; exact ⟨rfl, rfl, rfl, rfl⟩
  | cons rule rest ih =>
      intro st
      simp only [List.foldl_cons]
      obtain ⟨i1, i2, i3, i4⟩ := ih (captureStep rt st rule)
      obtain ⟨s1, s2, s3, s4⟩ := captureStep_fields rt st rule
      exact ⟨i1.trans s1, i2.trans s2, i3.trans s3, i4.trans s4⟩

/-- A one-request workflow: the single step is the final step, so its
response feeds the capture rules and both condition sets. -/
theorem check_with_config_single (net : Nat → RespObj) (u p : Str)
    (req : ReqConfig) (capture : List CaptureRule)
    (sconds fconds : List Condition) (r : OkResponse)
    (hm : methodSupported (pyUpper req.method) = true)
    (hr : net 0 = .ok r) :
    check_with_config net u p ⟨[req], capture, sconds, fconds⟩
      = (let st2 := capture.foldl (captureStep r.text) ([], initCheckResult)
         let resS :=
           if sconds ≠ [] then
             { st2.2 with success := check_conditions (.ok r) sconds }
           else st2.2
         if fconds ≠ [] then
           { resS with failure := check_conditions (.ok r) fconds }
         else resS) := by
  unfold check_with_config
  rw [runSteps_ok_last net u p ⟨[req], capture, sconds, fconds⟩ 0 req [] []
      initCheckResult r hm hr (by simp)]
  simp only [runSteps_nil]

/-!
# Claim theorems
-/

/-- C3: for every workflow and credential pair, if any request step
(including the first) returns a TransportError-shaped result — all
earlier steps having supported methods and non-error responses —
`check_with_config` aborts immediately with the error classification
carrying the error text, and no capture rule and no success/failure
condition is ever evaluated: the result has `success = false`,
`failure = false` and empty `captured_data`, whatever the workflow's
capture and condition rule sets are (they are not constrained by any
hypothesis). -/
theorem claim_C3_transport_error_aborts (net : Nat → RespObj) (u p : Str)
    (cfg : Config) (j : Nat) (msg : Str)
    (hj : j < cfg.requests.length)
    (hmeth : ∀ k (hk : k < cfg.requests.length), k ≤ j →
      methodSupported (pyUpper (cfg.requests.get ⟨k, hk⟩).method) = true)
    (hok : ∀ k, k < j → ∃ r, net k = .ok r)
    (herr : net j = .errDict msg) :
    check_with_config net u p cfg
      = { success := false, failure := false, error := true,
          error_message := msg, captured_data := [] } := by
  unfold check_with_config
  rw [runSteps_first_err net u p cfg cfg.requests 0 j msg [] initCheckResult hj
      hmeth (fun k hk => by simpa using hok k hk)
      (fun k hk => by omega) (by simpa using herr)]
  rfl

/-- Witness for C3: a one-step GET workflow whose first request returns
the error dict produces the error classification with the error text. -/
theorem claim_C3_witness :
    check_with_config (fun _ => .errDict "timed out".toList) "u".toList "p".toList
      ⟨[⟨"GET".toList, "http://x".toList, .jobj [], .jobj [], none, false⟩],
        [⟨"tok".toList, "A".toList, "B".toList⟩],
        [⟨"contains".toList, [], []⟩], [⟨"contains".toList, [], []⟩]⟩
      = { success := false, failure := false, error := true,
          error_message := "timed out".toList, captured_data := [] } := by
  apply claim_C3_transport_error_aborts
    (fun _ => .errDict "timed out".toList) "u".toList "p".toList
    _ 0 "timed out".toList (by decide)
  · intro k hk _
    have hk0 : k = 0 := by
      simp only [List.length_cons, List.length_nil] at hk
      omega
    subst hk0
    rfl
  · intro k hk
    omega
  · rfl

/-- C4: when the final response satisfies both the success and the
failure rule sets (both evaluating to true), the pair is classified Hit:
`check_with_config` reports `success = true` and `failure = true` with no
error, and `process_result` counts it as a hit — `hits` is incremented
and the `deads` count is unchanged. -/
theorem claim_C4_success_precedence (st : CheckerState) (combo u p : Str)
    (net : Nat → RespObj) (req : ReqConfig) (capture : List CaptureRule)
    (sconds fconds : List Condition) (r : OkResponse)
    (hm : methodSupported (pyUpper req.method) = true)
    (hr : net 0 = .ok r)
    (hs : check_conditions (.ok r) sconds = true)
    (hf : check_conditions (.ok r) fconds = true) :
    (check_with_config net u p ⟨[req], capture, sconds, fconds⟩).success = true ∧
    (check_with_config net u p ⟨[req], capture, sconds, fconds⟩).failure = true ∧
    (check_with_config net u p ⟨[req], capture, sconds, fconds⟩).error = false ∧
    (process_result st (check_with_config net u p ⟨[req], capture, sconds, fconds⟩)
        combo).stats.hits = st.stats.hits + 1 ∧
    (process_result st (check_with_config net u p ⟨[req], capture, sconds, fconds⟩)
        combo).stats.deads = st.stats.deads := by
  have hsne : sconds ≠ [] := by
    intro h
    rw [h] at hs
    simp [check_conditions] at hs
  have hfne : fconds ≠ [] := by
    intro h
    rw [h] at hf
    simp [check_conditions] at hf
  have herr0 : (capture.foldl (captureStep r.text) ([], initCheckResult)).2.error
      = false := by
    obtain ⟨_, _, herr, _⟩ :=
      foldl_captureStep_fields r.text capture ([], initCheckResult)
    rw [herr]
    rfl
  rw [check_with_config_single net u p req capture sconds fconds r hm hr]
  simp only [ne_eq, hsne, hfne, not_false_iff, if_true, ite_true]
  unfold process_result
  simp [hs, hf, herr0]

/-- C5: evaluating an empty rule list returns false; a non-empty list is
the conjunction of its rules, and any single failing rule makes the
whole evaluation false. -/
theorem claim_C5_empty_rules_false (resp : RespObj) (conds : List Condition) :
    check_conditions resp [] = false ∧
    (conds ≠ [] →
      check_conditions resp conds
        = conds.all (checkCondition (respProps resp).1 (respProps resp).2.1
            (respProps resp).2.2)) ∧
    (∀ c ∈ conds,
      checkCondition (respProps resp).1 (respProps resp).2.1 (respProps resp).2.2 c
          = false →
      check_conditions resp conds = false) := by
  refine ⟨by simp [check_conditions], ?_, ?_⟩
  · intro hne
    unfold check_conditions
    rw [if_neg hne]
    exact checkAllConditions_eq_all _ _ _ conds
  · intro c hc hfail
    unfold check_conditions
    by_cases hne : conds = []
    · rw [if_pos hne]
    · rw [if_neg hne, checkAllConditions_eq_all]
      exact List.all_eq_false.mpr ⟨c, hc, by simp [hfail]⟩

/-- Witness for C5: a response not containing `"x"` fails a `contains: x`
rule, which short-circuits the whole (non-empty) rule list to false. -/
theorem claim_C5_witness :
    check_conditions (.ok ⟨"abc".toList, 200, none⟩)
      [⟨"contains".toList, "x".toList, []⟩,
       ⟨"status_code".toList, "200".toList, []⟩] = false := by
  apply (claim_C5_empty_rules_false (.ok ⟨"abc".toList, 200, none⟩)
      [⟨"contains".toList, "x".toList, []⟩,
       ⟨"status_code".toList, "200".toList, []⟩]).2.2
    ⟨"contains".toList, "x".toList, []⟩ (by decide) (by decide)

/-- C10: only captures whose trimmed interior is non-empty are stored:
every value in the outcome's `captured_data` is a non-empty string, and
a capture rule whose extraction yields the (trimmed) empty string stores
nothing — the variable name is absent from the outcome, exactly as if
extraction had failed. -/
theorem claim_C10_empty_capture_not_stored (net : Nat → RespObj) (u p : Str)
    (cfg : Config) (req : ReqConfig) (rule : CaptureRule) (r : OkResponse)
    (hm : methodSupported (pyUpper req.method) = true)
    (hr : net 0 = .ok r)
    (hext : extract_substring r.text rule.startDelim rule.endDelim
      = some ([] : Str)) :
    (∀ nv ∈ (check_with_config net u p cfg).captured_data, nv.2 ≠ ([] : Str)) ∧
    (check_with_config net u p ⟨[req], [rule], [], []⟩).captured_data = [] ∧
    lookupStr (check_with_config net u p ⟨[req], [rule], [], []⟩).captured_data
      rule.name = none := by
  have hmain : (check_with_config net u p ⟨[req], [rule], [], []⟩).captured_data
      = [] := by
    rw [check_with_config_single net u p req [rule] [] [] r hm hr]
    simp only [ne_eq, eq_self_iff_true, not_true, if_false, List.foldl_cons,
      List.foldl_nil]
    unfold captureStep
    by_cases hg : rule.name ≠ ([] : Str) ∧ rule.startDelim ≠ ([] : Str) ∧
        rule.endDelim ≠ ([] : Str)
    · rw [if_pos hg, hext]
      rfl
    · rw [if_neg hg]
      rfl
  refine ⟨check_with_config_captured_nonempty net u p cfg, hmain, ?_⟩
  rw [hmain]
  rfl

/-- Witness for C4: a one-step GET workflow whose response satisfies both
a success rule and a failure rule is counted as a hit, with the dead
count unchanged. -/
theorem claim_C4_witness :
    (check_with_config (fun _ => .ok ⟨"ok".toList, 200, none⟩) "u".toList "p".toList
      ⟨[⟨"GET".toList, [], .jobj [], .jobj [], none, false⟩], [],
        [⟨"contains".toList, "ok".toList, []⟩],
        [⟨"status_code".toList, "200".toList, []⟩]⟩).success = true ∧
    (check_with_config (fun _ => .ok ⟨"ok".toList, 200, none⟩) "u".toList "p".toList
      ⟨[⟨"GET".toList, [], .jobj [], .jobj [], none, false⟩], [],
        [⟨"contains".toList, "ok".toList, []⟩],
        [⟨"status_code".toList, "200".toList, []⟩]⟩).failure = true ∧
    (check_with_config (fun _ => .ok ⟨"ok".toList, 200, none⟩) "u".toList "p".toList
      ⟨[⟨"GET".toList, [], .jobj [], .jobj [], none, false⟩], [],
        [⟨"contains".toList, "ok".toList, []⟩],
        [⟨"status_code".toList, "200".toList, []⟩]⟩).error = false ∧
    (process_result ⟨⟨0, 0, 1, 0, 0, 0, 0, 0⟩, [], []⟩
      (check_with_config (fun _ => .ok ⟨"ok".toList, 200, none⟩) "u".toList "p".toList
        ⟨[⟨"GET".toList, [], .jobj [], .jobj [], none, false⟩], [],
          [⟨"contains".toList, "ok".toList, []⟩],
          [⟨"status_code".toList, "200".toList, []⟩]⟩)
      "a:b".toList).stats.hits
        = (⟨⟨0, 0, 1, 0, 0, 0, 0, 0⟩, [], []⟩ : CheckerState).stats.hits + 1 ∧
    (process_result ⟨⟨0, 0, 1, 0, 0, 0, 0, 0⟩, [], []⟩
      (check_with_config (fun _ => .ok ⟨"ok".toList, 200, none⟩) "u".toList "p".toList
        ⟨[⟨"GET".toList, [], .jobj [], .jobj [], none, false⟩], [],
          [⟨"contains".toList, "ok".toList, []⟩],
          [⟨"status_code".toList, "200".toList, []⟩]⟩)
      "a:b".toList).stats.deads
        = (⟨⟨0, 0, 1, 0, 0, 0, 0, 0⟩, [], []⟩ : CheckerState).stats.deads :=
  claim_C4_success_precedence ⟨⟨0, 0, 1, 0, 0, 0, 0, 0⟩, [], []⟩ "a:b".toList
    "u".toList "p".toList (fun _ => .ok ⟨"ok".toList, 200, none⟩)
    ⟨"GET".toList, [], .jobj [], .jobj [], none, false⟩ []
    [⟨"contains".toList, "ok".toList, []⟩]
    [⟨"status_code".toList, "200".toList, []⟩]
    ⟨"ok".toList, 200, none⟩ (by decide) rfl (by decide) (by decide)

/-- Witness for C10: the body `"xxA  Bzz"` contains both delimiters of
the rule `{tok, A, B}` but the interior strips to the empty string, so
nothing is stored and `tok` is absent from the outcome. -/
theorem claim_C10_witness :
    (∀ nv ∈ (check_with_config (fun _ => .ok ⟨"xxA  Bzz".toList, 200, none⟩)
        "u".toList "p".toList
        ⟨[⟨"GET".toList, [], .jobj [], .jobj [], none, false⟩],
          [⟨"tok".toList, "A".toList, "B".toList⟩], [], []⟩).captured_data,
      nv.2 ≠ ([] : Str)) ∧
    (check_with_config (fun _ => .ok ⟨"xxA  Bzz".toList, 200, none⟩)
      "u".toList "p".toList
      ⟨[⟨"GET".toList, [], .jobj [], .jobj [], none, false⟩],
        [⟨"tok".toList, "A".toList, "B".toList⟩], [], []⟩).captured_data = [] ∧
    lookupStr (check_with_config (fun _ => .ok ⟨"xxA  Bzz".toList, 200, none⟩)
      "u".toList "p".toList
      ⟨[⟨"GET".toList, [], .jobj [], .jobj [], none, false⟩],
        [⟨"tok".toList, "A".toList, "B".toList⟩], [], []⟩).captured_data
      "tok".toList = none :=
  claim_C10_empty_capture_not_stored
    (fun _ => .ok ⟨"xxA  Bzz".toList, 200, none⟩) "u".toList "p".toList
    ⟨[⟨"GET".toList, [], .jobj [], .jobj [], none, false⟩],
      [⟨"tok".toList, "A".toList, "B".toList⟩], [], []⟩
    ⟨"GET".toList, [], .jobj [], .jobj [], none, false⟩
    ⟨"tok".toList, "A".toList, "B".toList⟩
    ⟨"xxA  Bzz".toList, 200, none⟩ (by decide) rfl (by decide)

/-- C1 fails on the code: processing a result with `error` set increments
the `deads` (fail) counter — the claim asserts the fails/dead count is
unchanged and a distinct errors counter is incremented, but `deads`
changes from 0 to 1 (and the stats dict has no errors key at all). -/
theorem claim_C1_counterexample :
    (process_result ⟨⟨0, 0, 1, 0, 0, 0, 0, 0⟩, [], []⟩
        ⟨false, false, true, "connection error".toList, []⟩
        "a:b".toList).stats.deads
      ≠ (⟨⟨0, 0, 1, 0, 0, 0, 0, 0⟩, [], []⟩ : CheckerState).stats.deads := by
  decide

/-- C1 amended: processing a result with `error` set increments `deads`
by one and changes nothing else — errors are folded into the dead count
(the stats dict of `ConsoleChecker.__init__` has no separate errors
counter). -/
theorem claim_C1_errors_increment_deads (st : CheckerState) (r : CheckResult)
    (combo : Str) (h : r.error = true) :
    process_result st r combo
      = { st with stats := { st.stats with deads := st.stats.deads + 1 } } := by
  unfold process_result
  simp [h]

/-- Witness for the amended C1. -/
theorem claim_C1_witness :
    (⟨false, false, true, "connection error".toList, []⟩ : CheckResult).error
        = true ∧
    process_result ⟨⟨0, 0, 1, 0, 0, 0, 0, 0⟩, [], []⟩
        ⟨false, false, true, "connection error".toList, []⟩ "a:b".toList
      = ⟨⟨0, 0, 1, 1, 0, 0, 0, 0⟩, [], []⟩ :=
  ⟨rfl, claim_C1_errors_increment_deads ⟨⟨0, 0, 1, 0, 0, 0, 0, 0⟩, [], []⟩
    ⟨false, false, true, "connection error".toList, []⟩ "a:b".toList rfl⟩

/-- C2 fails on the code: `with threading.Lock():` creates a fresh lock
per increment, so `self.stats['checked'] += 1` is an unguarded
read-modify-write.  With K = 2 queued combos and T = 2 workers there is
an interleaving (both workers dequeue, both read `checked = 0`, both
write `1`) under which every item is still processed exactly once but
the run ends with `checked = 1 ≠ K`. -/
theorem claim_C2_lost_update_trace :
    runSched (initSched [0, 1] 2) [0, 1, 0, 1, 0, 1, 0, 1]
      = { queue := [], checked := 1, processed := [0, 1],
          workers := [.finished, .finished] }
    ∧ (runSched (initSched [0, 1] 2) [0, 1, 0, 1, 0, 1, 0, 1]).checked
        ≠ ([0, 1] : List Nat).length := by
  decide

/-- C6: `HttpClient.__init__` fixes 3 attempts with a 1-second delay;
when every attempt raises, `get` sleeps 1 second between consecutive
attempts (two sleeps for three attempts), returns the error dict
carrying the last failure description, and for every attempt oracle the
function returns a value — no exception escapes its boundary. -/
theorem claim_C6_retry_exhaustion (t : Rat) (att : Nat → AttemptOutcome)
    (m0 m1 m2 : Str)
    (h0 : att 0 = .exc m0) (h1 : att 1 = .exc m1) (h2 : att 2 = .exc m2) :
    (HttpClient_init t).retries = 3 ∧ (HttpClient_init t).retry_delay = 1 ∧
    http_get att (HttpClient_init t) = (some (.errDict m2), [1, 1]) ∧
    ∀ att' : Nat → AttemptOutcome,
      (http_get att' (HttpClient_init t)).1 ≠ none := by
  refine ⟨rfl, rfl, ?_, ?_⟩
  · simp [http_get, HttpClient_init, getLoop, h0, h1, h2]
  · intro att' hnone
    unfold http_get HttpClient_init getLoop at hnone
    cases ha0 : att' 0 with
    | ok r => simp [ha0, getLoop] at hnone
    | exc n0 =>
        cases ha1 : att' 1 with
        | ok r => simp [ha0, ha1, getLoop] at hnone
        | exc n1 =>
            cases ha2 : att' 2 with
            | ok r => simp [ha0, ha1, ha2, getLoop] at hnone
            | exc n2 => simp [ha0, ha1, ha2, getLoop] at hnone

/-- Witness for C6: an oracle whose every attempt raises. -/
theorem claim_C6_witness :
    (HttpClient_init 10).retries = 3 ∧ (HttpClient_init 10).retry_delay = 1 ∧
    http_get (fun _ => .exc "boom".toList) (HttpClient_init 10)
      = (some (.errDict "boom".toList), [1, 1]) ∧
    ∀ att' : Nat → AttemptOutcome,
      (http_get att' (HttpClient_init 10)).1 ≠ none :=
  claim_C6_retry_exhaustion 10 (fun _ => .exc "boom".toList)
    "boom".toList "boom".toList "boom".toList rfl rfl rfl

/-- C7: `extract_substring` treats the delimiters as literal strings,
matches the first occurrence of the start delimiter followed by the
shortest span up to the first subsequent occurrence of the end delimiter
(which may span line breaks), and returns the stripped interior; it
returns `none` when either delimiter is empty or no such match exists.
In particular `extract("xxxAhelloBxxx", "A", "B") = "hello"`. -/
theorem claim_C7_extract_characterization :
    (extract_substring "xxxAhelloBxxx".toList "A".toList "B".toList
        = some "hello".toList) ∧
    (∀ t e : Str, extract_substring t [] e = none) ∧
    (∀ t s : Str, extract_substring t s [] = none) ∧
    (∀ t s e r : Str, extract_substring t s e = some r →
      s ≠ [] ∧ e ≠ [] ∧ ∃ i j,
        occursAtB s t i = true ∧ (∀ i', i' < i → occursAtB s t i' = false) ∧
        i + s.length ≤ j ∧ occursAtB e t j = true ∧
        (∀ j', i + s.length ≤ j' → j' < j → occursAtB e t j' = false) ∧
        r = pyStrip ((t.drop (i + s.length)).take (j - (i + s.length)))) ∧
    (∀ t s e : Str,
      (∀ i j, occursAtB s t i = true → occursAtB e t j = true →
        i + s.length ≤ j → False) →
      extract_substring t s e = none) := by
  refine ⟨by decide, ?_, ?_, extract_substring_some,
    extract_substring_none_of_no_match⟩
  · intro t e
    exact (extract_substring_empty_delims t e []).1
  · intro t s
    exact (extract_substring_empty_delims t [] s).2

/-- Witness for C7: instantiating the match characterization on
`extract("xxxAhelloBxxx", "A", "B") = "hello"`. -/
theorem claim_C7_witness :
    ("A".toList : Str) ≠ [] ∧ ("B".toList : Str) ≠ [] ∧ ∃ i j,
      occursAtB "A".toList "xxxAhelloBxxx".toList i = true ∧
      (∀ i', i' < i → occursAtB "A".toList "xxxAhelloBxxx".toList i' = false) ∧
      i + "A".toList.length ≤ j ∧
      occursAtB "B".toList "xxxAhelloBxxx".toList j = true ∧
      (∀ j', i + "A".toList.length ≤ j' → j' < j →
        occursAtB "B".toList "xxxAhelloBxxx".toList j' = false) ∧
      "hello".toList = pyStrip (("xxxAhelloBxxx".toList.drop
        (i + "A".toList.length)).take (j - (i + "A".toList.length))) :=
  claim_C7_extract_characterization.2.2.2.1 "xxxAhelloBxxx".toList "A".toList
    "B".toList "hello".toList (by decide)

/-- C8 fails on the code as stated: the claim covers both `update_stats`
implementations, but the one in src/cli_checker.py truncates the
smoothed value with `int(...)`.  With previous rate r = 96 and
instantaneous rate i = 60 (one check in a one-second interval), the
exact blend 0.6·96 + 0.4·60 = 81.6 while the stored rate is 81. -/
theorem claim_C8_counterexample :
    (update_stats_cli_checker 1
        ⟨1, 0, 1, 0, 0, 96, 0, 0⟩).cpm = 81 ∧
    (96 : Rat) * 0.6 + ((1 : Rat) - (0 : Rat)) * 60 * 0.4 = 81.6 ∧
    (update_stats_cli_checker 1 ⟨1, 0, 1, 0, 0, 96, 0, 0⟩).cpm
      ≠ (96 : Rat) * 0.6 + ((1 : Rat) - (0 : Rat)) * 60 * 0.4 := by
  refine ⟨?_, by norm_num, ?_⟩ <;>
    norm_num [update_stats_cli_checker, pyIntTrunc]

/-- C8 amended: whenever a sample is due (at least one second since the
last one), with previous smoothed rate 0 both implementations store the
instantaneous rate `delta * 60`; otherwise src/cli_mode.py stores
exactly `0.6·previous + 0.4·instantaneous`, while src/cli_checker.py
stores the integer truncation `int(0.6·previous + 0.4·instantaneous)`. -/
theorem claim_C8_smoothing (t : Rat) (s : Stats)
    (hdue : t - s.last_cpm_update ≥ 1) :
    (s.cpm = 0 →
      (update_stats_cli_mode t s).cpm
        = ((s.checked : Rat) - (s.last_checked : Rat)) * 60 ∧
      (update_stats_cli_checker t s).cpm
        = ((s.checked : Rat) - (s.last_checked : Rat)) * 60) ∧
    (s.cpm ≠ 0 →
      (update_stats_cli_mode t s).cpm
        = s.cpm * 0.6 + (((s.checked : Rat) - (s.last_checked : Rat)) * 60) * 0.4 ∧
      (update_stats_cli_checker t s).cpm
        = (pyIntTrunc (s.cpm * 0.6
            + (((s.checked : Rat) - (s.last_checked : Rat)) * 60) * 0.4) : Rat)) := by
  constructor
  · intro hz
    constructor <;>
      simp [update_stats_cli_mode, update_stats_cli_checker, hdue, hz]
  · intro hz
    constructor <;>
      simp [update_stats_cli_mode, update_stats_cli_checker, hdue, hz]

/-- Witness for the amended C8: a second sample (t = 2) with prior rate
10 and one check since the last sample. -/
theorem claim_C8_witness :
    ((⟨1, 0, 1, 0, 0, 10, 0, 1⟩ : Stats).cpm = 0 →
      (update_stats_cli_mode 2 ⟨1, 0, 1, 0, 0, 10, 0, 1⟩).cpm
        = (((1 : Nat) : Rat) - ((0 : Nat) : Rat)) * 60 ∧
      (update_stats_cli_checker 2 ⟨1, 0, 1, 0, 0, 10, 0, 1⟩).cpm
        = (((1 : Nat) : Rat) - ((0 : Nat) : Rat)) * 60) ∧
    ((⟨1, 0, 1, 0, 0, 10, 0, 1⟩ : Stats).cpm ≠ 0 →
      (update_stats_cli_mode 2 ⟨1, 0, 1, 0, 0, 10, 0, 1⟩).cpm
        = (10 : Rat) * 0.6 + ((((1 : Nat) : Rat) - ((0 : Nat) : Rat)) * 60) * 0.4 ∧
      (update_stats_cli_checker 2 ⟨1, 0, 1, 0, 0, 10, 0, 1⟩).cpm
        = (pyIntTrunc ((10 : Rat) * 0.6
            + ((((1 : Nat) : Rat) - ((0 : Nat) : Rat)) * 60) * 0.4) : Rat)) :=
  claim_C8_smoothing 2 ⟨1, 0, 1, 0, 0, 10, 0, 1⟩ (by norm_num)

/-- C9: substitution is idempotent once no matching placeholder remains:
if the result of `_replace_variables` contains no occurrence of
`{USERNAME}`, `{PASSWORD}`, or any captured name's upper-cased,
lower-cased, or stored marker, substituting again leaves it unchanged. -/
theorem claim_C9_substitution_idempotent (u p : Str)
    (cap : List (Str × Str)) (t : Str)
    (h : ∀ m ∈ markersOf cap,
      containsSub m (replace_variables u p cap t) = false) :
    replace_variables u p cap (replace_variables u p cap t)
      = replace_variables u p cap t :=
  replace_variables_fixed u p cap (replace_variables u p cap t) h

/-- Witness for C9: substituting into `"x={USERNAME}&t={TOK}"` leaves no
marker, so a second substitution is the identity. -/
theorem claim_C9_witness :
    replace_variables "user".toList "pw".toList [("tok".toList, "V9".toList)]
      (replace_variables "user".toList "pw".toList [("tok".toList, "V9".toList)]
        "x={USERNAME}&t={TOK}".toList)
      = replace_variables "user".toList "pw".toList [("tok".toList, "V9".toList)]
        "x={USERNAME}&t={TOK}".toList :=
  claim_C9_substitution_idempotent "user".toList "pw".toList
    [("tok".toList, "V9".toList)] "x={USERNAME}&t={TOK}".toList (by decide)
